import Mathlib

/-!
A shallow embedding of `src/server-sqlite.js` (the europe-travel-map sync
server).  The server exposes three store-touching endpoints:

* `GET  /api/sync/:userId`  — read a user record,
* `POST /api/sync/:userId`  — upsert a user record,
* `GET  /api/admin/stats`   — row count of the `users` table,

backed by a single SQLite table `users(user_id PRIMARY KEY, paris_data,
london_data, updated_at)`.

Modelling notes:

* JSON values (`JSON.parse` / `JSON.stringify` of the JS runtime) are
  modelled by the mutual inductive `Json` below; JSON numbers are modelled
  as integers (the claims under study do not depend on floating point) and
  string escaping covers the quote, backslash and the common control
  characters `\n`, `\t`, `\r`.  `JSON.stringify` emits no whitespace, so the
  modelled parser does not skip whitespace.
* `String.prototype.toLowerCase` is modelled by per-character ASCII
  lowercasing (`Char.toLower`); all identifiers relevant to the claims are
  ASCII.
* The SQLite table is modelled as an association list with unique keys;
  `INSERT ... ON CONFLICT(user_id) DO UPDATE` is an atomic replace-or-insert
  (`dbUpsert`), `SELECT * ... WHERE user_id = ?` is `dbGet`, and
  `SELECT COUNT(*)` is `userCount`.  A possible failure of the persistence
  layer on a request is modelled by an oracle `Option String` (`none` =
  the statement succeeds, `some msg` = it throws an error whose `.message`
  is `msg`); a throwing statement performs no write (SQLite statement
  atomicity).
* JS truthiness tests (`req.body.paris ? ... : ...`,
  `row.paris_data ? ... : ...`) are modelled by `Json.truthy` and an
  emptiness test on the stored text column.
-/

/-! ## JSON values -/

mutual

inductive Json where
  | null : Json
  | bool (b : Bool) : Json
  | num (n : Int) : Json
  | str (s : String) : Json
  | arr (xs : JsonList) : Json
  | obj (kvs : JsonObj) : Json
deriving DecidableEq

inductive JsonList where
  | nil : JsonList
  | cons (v : Json) (tl : JsonList) : JsonList
deriving DecidableEq

inductive JsonObj where
  | nil : JsonObj
  | cons (k : String) (v : Json) (tl : JsonObj) : JsonObj
deriving DecidableEq

end

/-- JavaScript truthiness of a JSON value: `null`, `false`, `0` and `""` are
falsy; every array and every object (including empty ones) is truthy. -/
def Json.truthy : Json → Bool
  | .null => false
  | .bool b => b
  | .num n => decide (n ≠ 0)
  | .str s => decide (s ≠ "")
  | .arr _ => true
  | .obj _ => true

/-! ## `JSON.stringify` -/

/-- Escape sequence emitted for one character of a JSON string. -/
def escSeq (c : Char) : List Char :=
  if c = '"' then ['\\', '"']
  else if c = '\\' then ['\\', '\\']
  else if c = '\n' then ['\\', 'n']
  else if c = '\t' then ['\\', 't']
  else if c = '\r' then ['\\', 'r']
  else [c]

def escape : List Char → List Char
  | [] => []
  | c :: cs => escSeq c ++ escape cs

/-- The decimal digit `d` (`d < 10`) as a character. -/
def digitChar (d : Nat) : Char :=
  match d with
  | 0 => '0' | 1 => '1' | 2 => '2' | 3 => '3' | 4 => '4'
  | 5 => '5' | 6 => '6' | 7 => '7' | 8 => '8' | _ => '9'

/-- Decimal representation of a natural number, most significant digit
first. -/
def natDigits (n : Nat) : List Char :=
  if n = 0 then ['0'] else (Nat.digits 10 n).reverse.map digitChar

/-- Decimal representation of an integer. -/
def intChars (n : Int) : List Char :=
  if n < 0 then '-' :: natDigits n.natAbs else natDigits n.toNat

mutual

/-- `JSON.stringify` on the modelled values, as a character list. -/
def strVal : Json → List Char
  | .num n => intChars n
  | .str s => '"' :: escape s.data ++ ['"']
  | .bool b =>
      if b then ['t', 'r', 'u', 'e'] else ['f', 'a', 'l', 's', 'e']
  | .null => ['n', 'u', 'l', 'l']
  | .arr .nil => ['[', ']']
  | .arr (.cons v tl) => '[' :: (strVal v ++ strItems tl)
  | .obj .nil => ['{', '}']
  | .obj (.cons k v tl) =>
      '{' :: ('"' :: escape k.data ++ '"' :: ':' :: strVal v ++ strMembers tl)

/-- The tail of a stringified non-empty array: `,elt` repeated, then `]`. -/
def strItems : JsonList → List Char
  | .nil => [']']
  | .cons v tl => ',' :: (strVal v ++ strItems tl)

/-- The tail of a stringified non-empty object: `,"key":val` repeated,
then `}`. -/
def strMembers : JsonObj → List Char
  | .nil => ['}']
  | .cons k v tl =>
      ',' :: ('"' :: escape k.data ++ '"' :: ':' :: strVal v ++ strMembers tl)

end

def stringifyJ (v : Json) : String := ⟨strVal v⟩

/-! ## `JSON.parse` -/

/-- Reverse of `escSeq`: the character denoted by `\\c`. -/
def unesc (c : Char) : Option Char :=
  if c = '"' then some '"'
  else if c = '\\' then some '\\'
  else if c = 'n' then some '\n'
  else if c = 't' then some '\t'
  else if c = 'r' then some '\r'
  else none

/-- Parse the body of a JSON string (after the opening quote) up to and
including the closing quote; returns the decoded characters and the rest of
the input. -/
def parseStrAux : List Char → Option (List Char × List Char)
  | [] => none
  | c :: rest =>
      if c = '"' then some ([], rest)
      else if c = '\\' then
        match rest with
        | [] => none
        | e :: rest2 =>
            match unesc e with
            | none => none
            | some d =>
                match parseStrAux rest2 with
                | none => none
                | some (s, r) => some (d :: s, r)
      else
        match parseStrAux rest with
        | none => none
        | some (s, r) => some (c :: s, r)

/-- Numeric value of a big-endian list of decimal digit characters. -/
def charsToNat (ds : List Char) : Nat :=
  ds.foldl (fun a c => 10 * a + (c.toNat - 48)) 0

/-- Parse a maximal nonempty run of decimal digits. -/
def parseNatNum (cs : List Char) : Option (Nat × List Char) :=
  let ds := cs.takeWhile Char.isDigit
  if ds.isEmpty then none else some (charsToNat ds, cs.dropWhile Char.isDigit)

mutual

/-- Fuel-indexed recursive-descent parser for one JSON value. -/
def parseVal : Nat → List Char → Option (Json × List Char)
  | 0, _ => none
  | _ + 1, [] => none
  | fuel + 1, c :: cs =>
      if c = 'n' then
        match cs with
        | 'u' :: 'l' :: 'l' :: rest => some (.null, rest)
        | _ => none
      else if c = 't' then
        match cs with
        | 'r' :: 'u' :: 'e' :: rest => some (.bool true, rest)
        | _ => none
      else if c = 'f' then
        match cs with
        | 'a' :: 'l' :: 's' :: 'e' :: rest => some (.bool false, rest)
        | _ => none
      else if c = '"' then
        match parseStrAux cs with
        | none => none
        | some (s, r) => some (.str ⟨s⟩, r)
      else if c = '-' then
        match parseNatNum cs with
        | none => none
        | some (n, r) => some (.num (-(n : Int)), r)
      else if c = '[' then
        match cs with
        | [] => none
        | c2 :: cs2 =>
            if c2 = ']' then some (.arr .nil, cs2)
            else
              match parseVal fuel (c2 :: cs2) with
              | none => none
              | some (v, r) =>
                  match parseItems fuel r with
                  | none => none
                  | some (vs, r2) => some (.arr (.cons v vs), r2)
      else if c = '{' then
        match cs with
        | [] => none
        | c2 :: cs2 =>
            if c2 = '}' then some (.obj .nil, cs2)
            else if c2 = '"' then
              match parseStrAux cs2 with
              | none => none
              | some (k, r) =>
                  match r with
                  | ':' :: r2 =>
                      match parseVal fuel r2 with
                      | none => none
                      | some (v, r3) =>
                          match parseMembers fuel r3 with
                          | none => none
                          | some (kvs, r4) => some (.obj (.cons ⟨k⟩ v kvs), r4)
                  | _ => none
            else none
      else if c.isDigit then
        match parseNatNum (c :: cs) with
        | none => none
        | some (n, r) => some (.num (n : Int), r)
      else none

/-- Parse the remaining items of an array: `]` closes, `,` continues. -/
def parseItems : Nat → List Char → Option (JsonList × List Char)
  | 0, _ => none
  | _ + 1, ']' :: rest => some (.nil, rest)
  | fuel + 1, ',' :: cs =>
      match parseVal fuel cs with
      | none => none
      | some (v, r) =>
          match parseItems fuel r with
          | none => none
          | some (vs, r2) => some (.cons v vs, r2)
  | _ + 1, _ => none

/-- Parse the remaining members of an object: `}` closes, `,` continues. -/
def parseMembers : Nat → List Char → Option (JsonObj × List Char)
  | 0, _ => none
  | _ + 1, '}' :: rest => some (.nil, rest)
  | fuel + 1, ',' :: '"' :: cs =>
      match parseStrAux cs with
      | none => none
      | some (k, r) =>
          match r with
          | ':' :: r2 =>
              match parseVal fuel r2 with
              | none => none
              | some (v, r3) =>
                  match parseMembers fuel r3 with
                  | none => none
                  | some (kvs, r4) => some (.cons ⟨k⟩ v kvs, r4)
          | _ => none
  | _ + 1, _ => none

end

/-- `JSON.parse`: parse a complete JSON document (no trailing input). -/
def parseJson (s : String) : Option Json :=
  match parseVal s.data.length s.data with
  | some (v, []) => some v
  | _ => none

/-! ## Round trip: `parseJson (stringifyJ v) = some v` -/

mutual

/-- Fuel sufficient for `parseVal` to parse `strVal v`. -/
def sizeV : Json → Nat
  | .null => 1
  | .bool _ => 1
  | .num _ => 1
  | .str _ => 1
  | .arr .nil => 1
  | .arr (.cons v tl) => 1 + sizeV v + sizeL tl
  | .obj .nil => 1
  | .obj (.cons _ v tl) => 1 + sizeV v + sizeO tl

/-- Fuel sufficient for `parseItems` to parse `strItems l`. -/
def sizeL : JsonList → Nat
  | .nil => 1
  | .cons v tl => 1 + sizeV v + sizeL tl

/-- Fuel sufficient for `parseMembers` to parse `strMembers o`. -/
def sizeO : JsonObj → Nat
  | .nil => 1
  | .cons _ v tl => 1 + sizeV v + sizeO tl

end

/-- The input's first character is not a decimal digit (so a preceding
maximal digit run ends exactly there). -/
def noDigitHeadB : List Char → Bool
  | [] => true
  | c :: _ => !c.isDigit

/-- The character class `[a-z0-9_-]` of the sanitizing regex, by code
point: `a`..`z` is 97..122, `0`..`9` is 48..57, `_` is 95, `-` is 45. -/
def isIdChar (c : Char) : Bool :=
  (97 ≤ c.toNat && c.toNat ≤ 122) || (48 ≤ c.toNat && c.toNat ≤ 57) ||
  c = '_' || c = '-'

/-- Lowercase, then strip every character outside `[a-z0-9_-]`. -/
def normalizeId (s : String) : String :=
  ⟨(s.data.map Char.toLower).filter isIdChar⟩

/-- The rejection test of both sync handlers:
`!userId || userId.length < 3 || userId.length > 30`. -/
def rejectId (userId : String) : Prop :=
  userId = "" ∨ userId.length < 3 ∨ userId.length > 30

instance (userId : String) : Decidable (rejectId userId) := by
  unfold rejectId; infer_instance

/-! ## The `users` table -/

/-- One row of `users`: two nullable TEXT columns of JSON and the
timestamp column. -/
structure Row where
  paris_data : Option String
  london_data : Option String
  updated_at : String
deriving DecidableEq

/-- The `users` table: an association list keyed by `user_id`
(`user_id TEXT PRIMARY KEY` keeps keys unique in every reachable state). -/
abbrev Store := List (String × Row)

/-- `SELECT * FROM users WHERE user_id = ?`. -/
def dbGet : Store → String → Option Row
  | [], _ => none
  | (k', r) :: st, k => if k' = k then some r else dbGet st k

/-- `INSERT INTO users ... ON CONFLICT(user_id) DO UPDATE SET ...` —
an atomic replace-or-insert on one key. -/
def dbUpsert : Store → String → Row → Store
  | [], k, r => [(k, r)]
  | (k', r') :: st, k, r =>
      if k' = k then (k, r) :: st else (k', r') :: dbUpsert st k r

/-- `SELECT COUNT(*) as count FROM users`. -/
def userCount (st : Store) : Nat := st.length

/-- A parsed JSON request body as the handlers see it: each field is
`none` when absent from the body (JS `undefined`).  `updatedAt` models any
timestamp field a client may include; the handler never reads it. -/
structure Body where
  paris : Option Json
  london : Option Json
  updatedAt : Option Json
deriving DecidableEq

/-- `req.body.x ? JSON.stringify(req.body.x) : null` — an absent or falsy
field is stored as NULL, a truthy one as its JSON serialization. -/
def serializeField : Option Json → Option String
  | none => none
  | some v => if v.truthy then some (stringifyJ v) else none

/-- `row.x_data ? JSON.parse(row.x_data) : null` — the read of one stored
column.  The outer `none` models `JSON.parse` throwing; `some j` is the
value exposed to the client, with `Json.null` for the falsy column case. -/
def deserializeField : Option String → Option Json
  | none => some .null
  | some s => if s = "" then some .null else parseJson s

/-- The `data` object of a successful Get with a record present. -/
structure GetData where
  paris : Json
  london : Json
  updatedAt : String
deriving DecidableEq

/-- The JSON responses the three store-touching handlers can produce
(status 200 for `getOk`/`postOk`/`statsOk`, 400 for `badRequest`,
500 for `serverError`). -/
inductive Resp where
  | getOk (data : Option GetData)
  | postOk (updatedAt : String)
  | badRequest (error : String)
  | serverError (error : String)
  | statsOk (userCount : Nat)
deriving DecidableEq

/-! ## The three handlers

`dbFail` is the persistence-failure oracle for the one SQLite statement a
handler runs: `none` means the statement succeeds, `some msg` that it
throws an error whose `.message` is `msg` (caught by the handler's
`try/catch`).  A throwing statement writes nothing.
-/

/-- `app.get('/api/sync/:userId', ...)`. -/
def getHandler (st : Store) (rawId : String) (dbFail : Option String) :
    Resp :=
  let userId := normalizeId rawId
  if rejectId userId then .badRequest "Invalid user ID"
  else
    match dbFail with
    | some _ => .serverError "Database error"
    | none =>
        match dbGet st userId with
        | none => .getOk none
        | some row =>
            match deserializeField row.paris_data,
                  deserializeField row.london_data with
            | some p, some l => .getOk (some ⟨p, l, row.updated_at⟩)
            | _, _ => .serverError "Database error"

/-- `app.post('/api/sync/:userId', ...)`; `now` is
`new Date().toISOString()` at the moment the handler runs. -/
def postHandler (st : Store) (rawId : String) (body : Body) (now : String)
    (dbFail : Option String) : Store × Resp :=
  let userId := normalizeId rawId
  if rejectId userId then (st, .badRequest "Invalid user ID")
  else
    let parisData := serializeField body.paris
    let londonData := serializeField body.london
    match dbFail with
    | some _ => (st, .serverError "Failed to save data")
    | none =>
        (dbUpsert st userId ⟨parisData, londonData, now⟩, .postOk now)

/-- `app.get('/api/admin/stats', ...)` — note the catch branch returns
`e.message` itself: `res.status(500).json({ error: e.message })`. -/
def statsHandler (st : Store) (dbFail : Option String) : Resp :=
  match dbFail with
  | some msg => .serverError msg
  | none => .statsOk (userCount st)

/-! ## Traces of API operations -/

/-- One incoming request to a store-touching endpoint, together with the
persistence-failure oracle for its statement. -/
inductive Op where
  | get (rawId : String) (dbFail : Option String)
  | put (rawId : String) (body : Body) (now : String)
      (dbFail : Option String)
  | stats (dbFail : Option String)

/-- Execute one request against the store. -/
def step (st : Store) : Op → Store × Resp
  | .get rawId dbFail => (st, getHandler st rawId dbFail)
  | .put rawId body now dbFail => postHandler st rawId body now dbFail
  | .stats dbFail => (st, statsHandler st dbFail)

/-- The store after a sequence of requests. -/
def run (ops : List Op) (st : Store) : Store :=
  ops.foldl (fun s op => (step s op).1) st

/-- The normalized identifiers of the successful Puts of a trace, in
order. -/
def succPutIds (ops : List Op) : List String :=
  ops.filterMap fun op =>
    match op with
    | .put rawId _ _ dbFail =>
        if rejectId (normalizeId rawId) then none
        else
          match dbFail with
          | some _ => none
          | none => some (normalizeId rawId)
    | _ => none

/-- A sample itinerary value: `{"day1":"louvre"}`. -/
def parisVal : Json := .obj (.cons "day1" (.str "louvre") .nil)

/-- The set of keys present in the table. -/
def keysF (st : Store) : Finset String := (st.map Prod.fst).toFinset

/-- A stored column is NULL or the serialization of some JSON value. -/
def goodCol (c : Option String) : Prop :=
  c = none ∨ ∃ v : Json, c = some (stringifyJ v)

/-- Every record of the table has two good columns. -/
def goodStore (st : Store) : Prop :=
  ∀ k row, dbGet st k = some row →
    goodCol row.paris_data ∧ goodCol row.london_data

/-! ## Theorems -/

theorem one_le_sizeV (v : Json) : 1 ≤ sizeV v := by
  cases v with
  | arr xs => cases xs <;> simp only [sizeV] <;> omega
  | obj kvs => cases kvs <;> simp only [sizeV] <;> omega
  | _ => simp only [sizeV]; omega

theorem one_le_sizeL (l : JsonList) : 1 ≤ sizeL l := by
  cases l <;> simp only [sizeL] <;> omega

theorem one_le_sizeO (o : JsonObj) : 1 ≤ sizeO o := by
  cases o <;> simp only [sizeO] <;> omega

theorem digitChar_isDigit {d : Nat} : (digitChar d).isDigit = true := by
  unfold digitChar
  split <;> decide

theorem digitChar_toNat {d : Nat} (h : d < 10) : (digitChar d).toNat - 48 = d := by
  interval_cases d <;> decide

/-- Every character of `natDigits n` is a decimal digit. -/
theorem natDigits_isDigit {n : Nat} {c : Char} (hc : c ∈ natDigits n) :
    c.isDigit = true := by
  unfold natDigits at hc
  split at hc
  · simp at hc; subst hc; decide
  · simp only [List.mem_map, List.mem_reverse] at hc
    obtain ⟨d, _, rfl⟩ := hc
    exact digitChar_isDigit

theorem natDigits_ne_nil (n : Nat) : natDigits n ≠ [] := by
  unfold natDigits
  split
  · simp
  · simp_all [Nat.digits_ne_nil_iff_ne_zero]

/-- A digit character is none of the structural characters the parser
dispatches on. -/
theorem isDigit_ne {c : Char} (h : c.isDigit = true) :
    c ≠ 'n' ∧ c ≠ 't' ∧ c ≠ 'f' ∧ c ≠ '"' ∧ c ≠ '-' ∧ c ≠ '[' ∧ c ≠ '{' ∧
    c ≠ ']' ∧ c ≠ ',' ∧ c ≠ '}' := by
  refine ⟨?_, ?_, ?_, ?_, ?_, ?_, ?_, ?_, ?_, ?_⟩ <;>
    (intro he; subst he; simp [Char.isDigit] at h)

theorem takeWhile_append_all {p : Char → Bool} {l r : List Char}
    (hl : ∀ c ∈ l, p c = true) :
    (l ++ r).takeWhile p = l ++ r.takeWhile p := by
  induction l with
  | nil => simp
  | cons c l ih =>
      simp only [List.cons_append, List.takeWhile_cons, hl c (by simp)]
      simp [ih fun x hx => hl x (by simp [hx])]

theorem dropWhile_append_all {p : Char → Bool} {l r : List Char}
    (hl : ∀ c ∈ l, p c = true) :
    (l ++ r).dropWhile p = r.dropWhile p := by
  induction l with
  | nil => simp
  | cons c l ih =>
      simp only [List.cons_append, List.dropWhile_cons, hl c (by simp)]
      simp [ih fun x hx => hl x (by simp [hx])]

/-- `charsToNat` undoes `natDigits`: the generic fold lemma. -/
theorem foldl_digitChar (l : List Nat) (hl : ∀ d ∈ l, d < 10) (a : Nat) :
    ((l.reverse.map digitChar).foldl (fun x c => 10 * x + (c.toNat - 48)) a) =
      a * 10 ^ l.length + Nat.ofDigits 10 l := by
  induction l generalizing a with
  | nil => simp
  | cons d l ih =>
      have hd : d < 10 := hl d (by simp)
      have hl' : ∀ x ∈ l, x < 10 := fun x hx => hl x (by simp [hx])
      simp only [List.reverse_cons, List.map_append, List.foldl_append,
        List.map_cons, List.map_nil, List.foldl_cons, List.foldl_nil,
        ih hl', digitChar_toNat hd, Nat.ofDigits_cons, List.length_cons]
      ring

theorem charsToNat_natDigits (n : Nat) : charsToNat (natDigits n) = n := by
  unfold charsToNat natDigits
  split
  · subst n; decide
  · rw [foldl_digitChar (Nat.digits 10 n)
      (fun d hd => Nat.digits_lt_base (by norm_num) hd) 0]
    simp [Nat.ofDigits_digits]

theorem parseNatNum_natDigits (k : Nat) (rest : List Char)
    (hrest : noDigitHeadB rest = true) :
    parseNatNum (natDigits k ++ rest) = some (k, rest) := by
  have hall : ∀ c ∈ natDigits k, Char.isDigit c = true :=
    fun _ hc => natDigits_isDigit hc
  have htake : rest.takeWhile Char.isDigit = [] := by
    cases rest with
    | nil => simp
    | cons c cs => simp_all [noDigitHeadB, List.takeWhile_cons]
  have hdrop : rest.dropWhile Char.isDigit = rest := by
    cases rest with
    | nil => simp
    | cons c cs => simp_all [noDigitHeadB, List.dropWhile_cons]
  simp only [parseNatNum, takeWhile_append_all hall, dropWhile_append_all hall,
    htake, hdrop, List.append_nil, List.isEmpty_eq_true, natDigits_ne_nil k,
    if_false, charsToNat_natDigits]

theorem parseStrAux_escape (cs rest : List Char) :
    parseStrAux (escape cs ++ '"' :: rest) = some (cs, rest) := by
  induction cs with
  | nil =>
      show parseStrAux ('"' :: rest) = _
      rw [parseStrAux.eq_def]; simp
  | cons c cs ih =>
      show parseStrAux ((escSeq c ++ escape cs) ++ '"' :: rest) = _
      by_cases h1 : c = '"'
      · subst h1
        simp only [escSeq, List.cons_append, List.append_assoc, if_pos rfl]
        rw [parseStrAux.eq_def]; simp [unesc, ih]
      · by_cases h2 : c = '\\'
        · subst h2
          simp only [escSeq, List.cons_append, List.append_assoc]
          norm_num
          rw [parseStrAux.eq_def]; simp [unesc, ih]
        · by_cases h3 : c = '\n'
          · subst h3
            simp only [escSeq, List.cons_append, List.append_assoc]
            norm_num
            rw [parseStrAux.eq_def]; simp [unesc, ih]
          · by_cases h4 : c = '\t'
            · subst h4
              simp only [escSeq, List.cons_append, List.append_assoc]
              norm_num
              rw [parseStrAux.eq_def]; simp [unesc, ih]
            · by_cases h5 : c = '\r'
              · subst h5
                simp only [escSeq, List.cons_append, List.append_assoc]
                norm_num
                rw [parseStrAux.eq_def]; simp [unesc, ih]
              · simp only [escSeq, if_neg h1, if_neg h2, if_neg h3, if_neg h4,
                  if_neg h5, List.cons_append, List.nil_append,
                  List.append_assoc]
                rw [parseStrAux.eq_def]; simp [h1, h2, ih]

/-- `strVal` never produces the empty list, and its first character is not
`]` (so the array parser's lookahead for `]` cannot misfire on it). -/
theorem strVal_head (v : Json) : ∃ c t, strVal v = c :: t ∧ c ≠ ']' := by
  cases v with
  | null => exact ⟨'n', ['u', 'l', 'l'], by simp [strVal], by decide⟩
  | bool b =>
      cases b
      · exact ⟨'f', ['a', 'l', 's', 'e'], by simp [strVal], by decide⟩
      · exact ⟨'t', ['r', 'u', 'e'], by simp [strVal], by decide⟩
  | num m =>
      have hsv : strVal (.num m) = intChars m := by simp [strVal]
      rw [hsv]
      unfold intChars
      split
      · exact ⟨'-', natDigits m.natAbs, rfl, by decide⟩
      · obtain ⟨c, t, hct⟩ : ∃ c t, natDigits m.toNat = c :: t := by
          cases hh : natDigits m.toNat with
          | nil => exact absurd hh (natDigits_ne_nil _)
          | cons c t => exact ⟨c, t, rfl⟩
        have hdig : c.isDigit = true := natDigits_isDigit (by rw [hct]; simp)
        exact ⟨c, t, hct, (isDigit_ne hdig).2.2.2.2.2.2.2.1⟩
  | str s => exact ⟨'"', escape s.data ++ ['"'], by simp [strVal], by decide⟩
  | arr xs =>
      cases xs
      · exact ⟨'[', [']'], by simp [strVal], by decide⟩
      · rename_i v tl
        exact ⟨'[', strVal v ++ strItems tl, by simp [strVal], by decide⟩
  | obj kvs =>
      cases kvs
      · exact ⟨'{', ['}'], by simp [strVal], by decide⟩
      · rename_i k v tl
        exact ⟨'{', '"' :: escape k.data ++ '"' :: ':' :: strVal v ++
          strMembers tl, by simp [strVal], by decide⟩

theorem noDigitHeadB_strItems (tl : JsonList) (rest : List Char) :
    noDigitHeadB (strItems tl ++ rest) = true := by
  cases tl <;> simp [strItems, noDigitHeadB, List.cons_append]

theorem noDigitHeadB_strMembers (tl : JsonObj) (rest : List Char) :
    noDigitHeadB (strMembers tl ++ rest) = true := by
  cases tl <;> simp [strMembers, noDigitHeadB, List.cons_append]

/-- Parsing inverts printing, for every sufficient fuel bound: the
simultaneous statement for values, array tails and object tails. -/
theorem parseRound (n : Nat) :
    (∀ v rest, sizeV v ≤ n → noDigitHeadB rest = true →
        parseVal n (strVal v ++ rest) = some (v, rest)) ∧
    (∀ l rest, sizeL l ≤ n →
        parseItems n (strItems l ++ rest) = some (l, rest)) ∧
    (∀ o rest, sizeO o ≤ n →
        parseMembers n (strMembers o ++ rest) = some (o, rest)) := by
  induction n with
  | zero =>
      refine ⟨fun v rest hv _ => absurd hv ?_, fun l rest hl => absurd hl ?_,
        fun o rest ho => absurd ho ?_⟩
      · have := one_le_sizeV v; omega
      · have := one_le_sizeL l; omega
      · have := one_le_sizeO o; omega
  | succ n ih =>
      obtain ⟨ihV, ihL, ihO⟩ := ih
      refine ⟨?_, ?_, ?_⟩
      · intro v rest hv hrest
        cases v with
        | null => simp [strVal, parseVal]
        | bool b => cases b <;> simp [strVal, parseVal]
        | num m =>
            have hsv : strVal (.num m) = intChars m := by simp [strVal]
            rw [hsv]
            unfold intChars
            split
            · rename_i hm
              have habs : -((m.natAbs : Nat) : Int) = m := by omega
              simp [parseVal, parseNatNum_natDigits m.natAbs rest hrest, habs,
                abs_of_neg hm]
            · rename_i hm
              have htn : ((m.toNat : Nat) : Int) = m := by omega
              obtain ⟨c, t, hct⟩ : ∃ c t, natDigits m.toNat = c :: t := by
                cases hh : natDigits m.toNat with
                | nil => exact absurd hh (natDigits_ne_nil _)
                | cons c t => exact ⟨c, t, rfl⟩
              have hdig : c.isDigit = true :=
                natDigits_isDigit (by rw [hct]; simp)
              have hne := isDigit_ne hdig
              have hpn : parseNatNum (c :: (t ++ rest)) =
                  some (m.toNat, rest) := by
                rw [show c :: (t ++ rest) = natDigits m.toNat ++ rest by
                      rw [hct]; simp]
                exact parseNatNum_natDigits _ _ hrest
              rw [show natDigits m.toNat ++ rest = c :: (t ++ rest) by
                    rw [hct]; simp]
              simp [parseVal, hne.1, hne.2.1, hne.2.2.1, hne.2.2.2.1,
                hne.2.2.2.2.1, hne.2.2.2.2.2.1, hne.2.2.2.2.2.2.1, hdig,
                hpn, htn]
        | str s =>
            cases s with
            | mk sl =>
                rw [show strVal (.str ⟨sl⟩) ++ rest =
                      '"' :: (escape sl ++ '"' :: rest) by simp [strVal]]
                simp [parseVal, parseStrAux_escape]
        | arr xs =>
            cases xs with
            | nil => simp [strVal, parseVal]
            | cons v tl =>
                obtain ⟨c2, t, hvh, hc2⟩ := strVal_head v
                have hv1 : sizeV v ≤ n := by simp only [sizeV] at hv; omega
                have hl1 : sizeL tl ≤ n := by simp only [sizeV] at hv; omega
                have hV : parseVal n (c2 :: (t ++ (strItems tl ++ rest))) =
                    some (v, strItems tl ++ rest) := by
                  rw [show c2 :: (t ++ (strItems tl ++ rest)) =
                        strVal v ++ (strItems tl ++ rest) by rw [hvh]; simp]
                  exact ihV v _ hv1 (noDigitHeadB_strItems tl rest)
                have hI := ihL tl rest hl1
                rw [show strVal (.arr (.cons v tl)) ++ rest =
                      '[' :: (c2 :: (t ++ (strItems tl ++ rest))) by
                      simp [strVal, hvh]]
                simp [parseVal, if_neg hc2, hV, hI]
        | obj kvs =>
            cases kvs with
            | nil => simp [strVal, parseVal]
            | cons k v tl =>
                cases k with
                | mk kl =>
                    have hv1 : sizeV v ≤ n := by
                      simp only [sizeV] at hv; omega
                    have ho1 : sizeO tl ≤ n := by
                      simp only [sizeV] at hv; omega
                    have hV := ihV v (strMembers tl ++ rest) hv1
                      (noDigitHeadB_strMembers tl rest)
                    have hM := ihO tl rest ho1
                    rw [show strVal (.obj (.cons ⟨kl⟩ v tl)) ++ rest =
                          '{' :: ('"' :: (escape kl ++ '"' :: (':' ::
                            (strVal v ++ (strMembers tl ++ rest))))) by
                          simp [strVal]]
                    simp [parseVal, parseStrAux_escape, hV, hM]
      · intro l rest hl
        cases l with
        | nil => simp [strItems, parseItems]
        | cons v tl =>
            have hv1 : sizeV v ≤ n := by simp only [sizeL] at hl; omega
            have hl1 : sizeL tl ≤ n := by simp only [sizeL] at hl; omega
            have hV := ihV v (strItems tl ++ rest) hv1
              (noDigitHeadB_strItems tl rest)
            have hI := ihL tl rest hl1
            rw [show strItems (.cons v tl) ++ rest =
                  ',' :: (strVal v ++ (strItems tl ++ rest)) by
                  simp [strItems]]
            simp [parseItems, hV, hI]
      · intro o rest ho
        cases o with
        | nil => simp [strMembers, parseMembers]
        | cons k v tl =>
            cases k with
            | mk kl =>
                have hv1 : sizeV v ≤ n := by simp only [sizeO] at ho; omega
                have ho1 : sizeO tl ≤ n := by simp only [sizeO] at ho; omega
                have hV := ihV v (strMembers tl ++ rest) hv1
                  (noDigitHeadB_strMembers tl rest)
                have hM := ihO tl rest ho1
                rw [show strMembers (.cons ⟨kl⟩ v tl) ++ rest =
                      ',' :: ('"' :: (escape kl ++ '"' :: (':' ::
                        (strVal v ++ (strMembers tl ++ rest))))) by
                      simp [strMembers]]
                simp [parseMembers, parseStrAux_escape, hV, hM]

mutual

theorem sizeV_le_length : (v : Json) → sizeV v ≤ (strVal v).length
  | .null => by simp [sizeV, strVal]
  | .bool b => by cases b <;> simp [sizeV, strVal]
  | .num m => by
      have h : intChars m ≠ [] := by
        unfold intChars
        split
        · simp
        · exact natDigits_ne_nil _
      have hp := List.length_pos.mpr h
      simp only [sizeV, strVal]
      omega
  | .str s => by simp [sizeV, strVal]
  | .arr .nil => by simp [sizeV, strVal]
  | .arr (.cons v tl) => by
      have h1 := sizeV_le_length v
      have h2 := sizeL_le_length tl
      simp only [sizeV, strVal, List.length_cons, List.length_append]
      omega
  | .obj .nil => by simp [sizeV, strVal]
  | .obj (.cons k v tl) => by
      have h1 := sizeV_le_length v
      have h2 := sizeO_le_length tl
      simp only [sizeV, strVal, List.length_cons, List.length_append]
      omega

theorem sizeL_le_length : (l : JsonList) → sizeL l ≤ (strItems l).length
  | .nil => by simp [sizeL, strItems]
  | .cons v tl => by
      have h1 := sizeV_le_length v
      have h2 := sizeL_le_length tl
      simp only [sizeL, strItems, List.length_cons, List.length_append]
      omega

theorem sizeO_le_length : (o : JsonObj) → sizeO o ≤ (strMembers o).length
  | .nil => by simp [sizeO, strMembers]
  | .cons k v tl => by
      have h1 := sizeV_le_length v
      have h2 := sizeO_le_length tl
      simp only [sizeO, strMembers, List.length_cons, List.length_append]
      omega

end

theorem strVal_ne_nil (v : Json) : strVal v ≠ [] := by
  obtain ⟨c, t, h, _⟩ := strVal_head v
  simp [h]

/-- `JSON.parse` inverts `JSON.stringify` on every modelled JSON value. -/
theorem parseJson_stringifyJ (v : Json) : parseJson (stringifyJ v) = some v := by
  have h := (parseRound (strVal v).length).1 v [] (sizeV_le_length v) rfl
  simp only [List.append_nil] at h
  unfold parseJson stringifyJ
  simp [h]

/-- `JSON.stringify` never returns the empty string (so the truthiness
test on a stored column never misreads a stringified value as absent). -/
theorem stringifyJ_ne_empty (v : Json) : stringifyJ v ≠ "" := by
  unfold stringifyJ
  intro h
  exact strVal_ne_nil v (congrArg String.data h)

/-! ### The `users` table -/

theorem dbGet_dbUpsert (st : Store) (k k' : String) (r : Row) :
    dbGet (dbUpsert st k r) k' = if k' = k then some r else dbGet st k' := by
  induction st with
  | nil =>
      by_cases h : k' = k
      · subst h; simp [dbUpsert, dbGet]
      · simp [dbUpsert, dbGet, h, Ne.symm h]
  | cons p st ih =>
      obtain ⟨k1, r1⟩ := p
      by_cases h1 : k1 = k
      · subst h1
        by_cases h : k' = k1
        · subst h; simp [dbUpsert, dbGet]
        · simp [dbUpsert, dbGet, h, Ne.symm h]
      · by_cases h : k' = k
        · subst h
          simp [dbUpsert, dbGet, h1, ih]
        · by_cases h2 : k1 = k'
          · subst h2; simp [dbUpsert, dbGet, h1, ih, h]
          · simp [dbUpsert, dbGet, h1, h2, ih, h]

/-- The key column after an upsert: unchanged when the key was present,
extended by the new key when absent. -/
theorem dbUpsert_keys (st : Store) (k : String) (r : Row) :
    (dbUpsert st k r).map Prod.fst =
      if (dbGet st k).isSome then st.map Prod.fst
      else st.map Prod.fst ++ [k] := by
  induction st with
  | nil => simp [dbUpsert, dbGet]
  | cons p st ih =>
      obtain ⟨k1, r1⟩ := p
      by_cases h1 : k1 = k
      · subst h1; simp [dbUpsert, dbGet]
      · simp [dbUpsert, dbGet, h1, ih]
        split <;> simp

theorem dbUpsert_length (st : Store) (k : String) (r : Row) :
    (dbUpsert st k r).length =
      if (dbGet st k).isSome then st.length else st.length + 1 := by
  have h := congrArg List.length (dbUpsert_keys st k r)
  simp only [List.length_map] at h
  rw [h]
  split <;> simp

/-! ### Identifier normalization -/

/-- Characters kept by the sanitizing regex are untouched by ASCII
lowercasing (none of them is an upper-case letter). -/
theorem toLower_of_isIdChar {c : Char} (h : isIdChar c = true) :
    c.toLower = c := by
  simp only [isIdChar, Bool.or_eq_true, Bool.and_eq_true,
    decide_eq_true_eq] at h
  unfold Char.toLower
  rw [if_neg]
  intro ⟨ha, hb⟩
  simp only [Char.toNat] at ha hb
  rcases h with ((⟨h1, h2⟩ | ⟨h1, h2⟩) | h) | h
  · simp only [Char.toNat] at h1 h2; omega
  · simp only [Char.toNat] at h1 h2; omega
  · subst h
    have : ('_'.val.toNat) = 95 := by decide
    omega
  · subst h
    have : ('-'.val.toNat) = 45 := by decide
    omega

theorem map_self_of_mem {α : Type} {f : α → α} :
    ∀ l : List α, (∀ c ∈ l, f c = c) → l.map f = l
  | [], _ => rfl
  | c :: l, h => by
      simp only [List.map_cons, h c (by simp),
        map_self_of_mem l fun x hx => h x (by simp [hx])]

theorem normalizeId_normalizeId (s : String) :
    normalizeId (normalizeId s) = normalizeId s := by
  unfold normalizeId
  have hmem : ∀ c ∈ (s.data.map Char.toLower).filter isIdChar,
      isIdChar c = true := fun c hc => (List.mem_filter.mp hc).2
  have hmap : ((s.data.map Char.toLower).filter isIdChar).map Char.toLower =
      (s.data.map Char.toLower).filter isIdChar :=
    map_self_of_mem _ fun c hc => toLower_of_isIdChar (hmem c hc)
  simp only [hmap]
  congr 1
  exact List.filter_eq_self.mpr hmem

/-- Reading back a column that a Put just wrote: an absent or falsy field
comes back as JSON `null`, a truthy one as exactly the submitted value. -/
theorem deserializeField_serializeField (ob : Option Json)
    (h : ∀ v, ob = some v → v.truthy = true) :
    deserializeField (serializeField ob) = some (ob.getD .null) := by
  cases ob with
  | none => simp [serializeField, deserializeField]
  | some v =>
      have ht := h v rfl
      simp [serializeField, deserializeField, ht, stringifyJ_ne_empty v,
        parseJson_stringifyJ v]

/-- C3: identifier normalization is idempotent, and
`"Paris_123!"` normalizes to `"paris_123"`. -/
theorem claim3_normalize_idempotent :
    (∀ s, normalizeId (normalizeId s) = normalizeId s) ∧
    normalizeId "Paris_123!" = "paris_123" :=
  ⟨normalizeId_normalizeId, by decide⟩

/-- C2: a GET or POST whose identifier normalizes to fewer than 3 or more
than 30 characters is answered with 400 `Invalid user ID`, the store is
not mutated, and any subsequent Get observes the unchanged store. -/
theorem claim2_invalid_id_rejected (st : Store) (rawId : String)
    (body : Body) (now : String) (gFail pFail : Option String)
    (h : (normalizeId rawId).length < 3 ∨ (normalizeId rawId).length > 30) :
    getHandler st rawId gFail = .badRequest "Invalid user ID" ∧
    (postHandler st rawId body now pFail).2 = .badRequest "Invalid user ID" ∧
    (postHandler st rawId body now pFail).1 = st ∧
    (∀ rawId2 f2,
      getHandler (postHandler st rawId body now pFail).1 rawId2 f2 =
        getHandler st rawId2 f2) := by
  have hrej : rejectId (normalizeId rawId) := Or.inr h
  refine ⟨?_, ?_, ?_, fun rawId2 f2 => ?_⟩ <;>
    simp [getHandler, postHandler, hrej]

/-- C2 witness: the two-character identifier `ab` is rejected. -/
theorem claim2_invalid_id_rejected_witness :
    ((normalizeId "ab").length < 3 ∨ (normalizeId "ab").length > 30) ∧
    getHandler [] "ab" none = .badRequest "Invalid user ID" :=
  ⟨by decide,
    (claim2_invalid_id_rejected [] "ab" ⟨none, none, none⟩ "T0" none none
      (by decide)).1⟩

/-- C6: for a valid identifier, a missing record yields
`{success:true, data:null}` (not an error), and a present record yields
the two columns deserialized independently together with the stored
timestamp. -/
theorem claim6_get_absent_and_present (st : Store) (rawId : String)
    (hid : ¬ rejectId (normalizeId rawId)) :
    (dbGet st (normalizeId rawId) = none →
      getHandler st rawId none = .getOk none) ∧
    (∀ row p l, dbGet st (normalizeId rawId) = some row →
      deserializeField row.paris_data = some p →
      deserializeField row.london_data = some l →
      getHandler st rawId none = .getOk (some ⟨p, l, row.updated_at⟩)) := by
  constructor
  · intro h; simp [getHandler, hid, h]
  · intro row p l h hp hl; simp [getHandler, hid, h, hp, hl]

/-- C6 witness: an unknown identifier gets `data: null`; a record whose
`paris` column is NULL while `london` holds JSON comes back with
`paris = null` and `london` decoded, independently. -/
theorem claim6_get_absent_and_present_witness :
    ¬ rejectId (normalizeId "alice") ∧
    getHandler [] "alice" none = .getOk none ∧
    getHandler [("alice", ⟨none, some (stringifyJ (.str "x")), "T0"⟩)]
      "alice" none = .getOk (some ⟨.null, .str "x", "T0"⟩) :=
  ⟨by decide,
    (claim6_get_absent_and_present [] "alice" (by decide)).1 (by decide),
    (claim6_get_absent_and_present
        [("alice", ⟨none, some (stringifyJ (.str "x")), "T0"⟩)] "alice"
        (by decide)).2
      ⟨none, some (stringifyJ (.str "x")), "T0"⟩ .null (.str "x")
      (by decide) (by decide) (by decide)⟩

/-- C7: `updatedAt` is computed server-side and never read from the body:
two bodies that agree on `paris` and `london` (and may differ in any
timestamp field) produce identical stores and responses, and on success
the returned timestamp is the handler's `now`, which is exactly the value
stored for that key. -/
theorem claim7_server_timestamp (st : Store) (rawId : String)
    (b1 b2 : Body) (now : String) (dbFail : Option String)
    (hp : b1.paris = b2.paris) (hl : b1.london = b2.london) :
    postHandler st rawId b1 now dbFail = postHandler st rawId b2 now dbFail ∧
    (¬ rejectId (normalizeId rawId) →
      (postHandler st rawId b1 now none).2 = .postOk now ∧
      (dbGet (postHandler st rawId b1 now none).1 (normalizeId rawId)).map
        Row.updated_at = some now) := by
  refine ⟨by simp [postHandler, hp, hl], fun hid => ⟨?_, ?_⟩⟩
  · simp [postHandler, hid]
  · simp [postHandler, hid, dbGet_dbUpsert]

/-- C7 witness: two bodies differing only in a client-supplied
`updatedAt` field are indistinguishable to the server, and the returned
timestamp is the server's. -/
theorem claim7_server_timestamp_witness :
    postHandler [] "alice" ⟨some parisVal, none, some (.str "1999")⟩ "T0"
        none =
      postHandler [] "alice" ⟨some parisVal, none, some (.str "2050")⟩ "T0"
        none ∧
    (postHandler [] "alice" ⟨some parisVal, none, some (.str "1999")⟩ "T0"
        none).2 = .postOk "T0" :=
  ⟨(claim7_server_timestamp [] "alice" _ _ "T0" none rfl rfl).1,
    ((claim7_server_timestamp [] "alice"
        ⟨some parisVal, none, some (.str "1999")⟩
        ⟨some parisVal, none, some (.str "1999")⟩ "T0" none rfl rfl).2
      (by decide)).1⟩

/-- C8: a Put on a valid identifier either succeeds — the key's record
holds exactly the two freshly serialized columns and the new timestamp,
every other key is untouched, and the response is success — or the store
statement fails and the whole store is unchanged with a 500 response. -/
theorem claim8_put_atomic (st : Store) (rawId : String) (body : Body)
    (now : String) (dbFail : Option String)
    (hid : ¬ rejectId (normalizeId rawId)) :
    (dbFail = none ∧
      dbGet (postHandler st rawId body now dbFail).1 (normalizeId rawId) =
        some ⟨serializeField body.paris, serializeField body.london, now⟩ ∧
      (∀ k, k ≠ normalizeId rawId →
        dbGet (postHandler st rawId body now dbFail).1 k = dbGet st k) ∧
      (postHandler st rawId body now dbFail).2 = .postOk now) ∨
    (∃ msg, dbFail = some msg ∧
      postHandler st rawId body now dbFail =
        (st, .serverError "Failed to save data")) := by
  cases dbFail with
  | none =>
      left
      refine ⟨rfl, ?_, fun k hk => ?_, ?_⟩
      · simp [postHandler, hid, dbGet_dbUpsert]
      · simp [postHandler, hid, dbGet_dbUpsert, hk]
      · simp [postHandler, hid]
  | some msg =>
      right
      exact ⟨msg, rfl, by simp [postHandler, hid]⟩

/-- C8 witness: a concrete successful Put and a concrete failing Put. -/
theorem claim8_put_atomic_witness :
    ¬ rejectId (normalizeId "alice") ∧
    (((none : Option String) = none ∧
      dbGet (postHandler [] "alice" ⟨some parisVal, none, none⟩ "T0"
          none).1 (normalizeId "alice") =
        some ⟨serializeField (some parisVal), serializeField none, "T0"⟩ ∧
      (∀ k, k ≠ normalizeId "alice" →
        dbGet (postHandler [] "alice" ⟨some parisVal, none, none⟩ "T0"
            none).1 k = dbGet [] k) ∧
      (postHandler [] "alice" ⟨some parisVal, none, none⟩ "T0" none).2 =
        .postOk "T0") ∨
    (∃ msg, (none : Option String) = some msg ∧
      postHandler [] "alice" ⟨some parisVal, none, none⟩ "T0" none =
        ([], .serverError "Failed to save data"))) :=
  ⟨by decide,
    claim8_put_atomic [] "alice" ⟨some parisVal, none, none⟩ "T0" none
      (by decide)⟩

/-- C4: every Put replaces both JSON columns wholesale — the stored row is
built from the submitted body alone, whatever the prior record held — so a
Put that omits `paris` while supplying `london` leaves `paris` NULL and a
subsequent Get reports `paris: null`. -/
theorem claim4_full_overwrite (st : Store) (rawId : String) (body : Body)
    (now : String) (hid : ¬ rejectId (normalizeId rawId))
    (hlv : ∀ v, body.london = some v → v.truthy = true) :
    dbGet (postHandler st rawId body now none).1 (normalizeId rawId) =
      some ⟨serializeField body.paris, serializeField body.london, now⟩ ∧
    (body.paris = none →
      getHandler (postHandler st rawId body now none).1 rawId none =
        .getOk (some ⟨.null, body.london.getD .null, now⟩)) := by
  constructor
  · simp [postHandler, hid, dbGet_dbUpsert]
  · intro hparis
    have hdl := deserializeField_serializeField body.london hlv
    have hdp : deserializeField (serializeField none) = some Json.null :=
      deserializeField_serializeField none fun v hv => by cases hv
    simp [postHandler, getHandler, hid, dbGet_dbUpsert, hparis, hdp, hdl]

/-- C4 witness: `alice` has a stored `paris`; a Put with only `london`
erases it — the following Get returns `paris: null`. -/
theorem claim4_full_overwrite_witness :
    ¬ rejectId (normalizeId "alice") ∧
    dbGet (postHandler
        (postHandler [] "alice" ⟨some parisVal, none, none⟩ "T0" none).1
        "alice" ⟨none, some (.str "pub"), none⟩ "T1" none).1
      (normalizeId "alice") =
      some ⟨none, some (stringifyJ (.str "pub")), "T1"⟩ ∧
    getHandler (postHandler
        (postHandler [] "alice" ⟨some parisVal, none, none⟩ "T0" none).1
        "alice" ⟨none, some (.str "pub"), none⟩ "T1" none).1 "alice" none =
      .getOk (some ⟨.null, .str "pub", "T1"⟩) := by
  have h := claim4_full_overwrite
    (postHandler [] "alice" ⟨some parisVal, none, none⟩ "T0" none).1
    "alice" ⟨none, some (.str "pub"), none⟩ "T1" (by decide)
    (fun v hv => by
      rw [← Option.some.inj hv]; decide)
  exact ⟨by decide, h.1, h.2 rfl⟩

/-- C1 counterexample: the claim quantifies over every submitted JSON
value, but the handler stores a *falsy* submitted value (here
`paris: false`) as NULL, so the read-back is `null`, not the submitted
`false`. -/
theorem claim1_counterexample :
    (postHandler [] "alice" ⟨some (.bool false), none, none⟩ "T0" none).2 =
      .postOk "T0" ∧
    getHandler
        (postHandler [] "alice" ⟨some (.bool false), none, none⟩ "T0"
          none).1 "alice" none =
      .getOk (some ⟨.null, .null, "T0"⟩) ∧
    (Json.null : Json) ≠ .bool false := by
  refine ⟨by decide, by decide, by decide⟩

/-- C1 (amended): for a valid identifier and a body whose present fields
are truthy JSON values, Put-then-Get returns exactly the submitted
`paris`/`london` (an omitted field reads back as `null`) and the Put's own
server timestamp `now`. -/
theorem claim1_put_get_roundtrip (st : Store) (rawId : String) (body : Body)
    (now : String) (hid : ¬ rejectId (normalizeId rawId))
    (hp : ∀ v, body.paris = some v → v.truthy = true)
    (hl : ∀ v, body.london = some v → v.truthy = true) :
    (postHandler st rawId body now none).2 = .postOk now ∧
    getHandler (postHandler st rawId body now none).1 rawId none =
      .getOk (some ⟨body.paris.getD .null, body.london.getD .null, now⟩) := by
  constructor
  · simp [postHandler, hid]
  · have hdp := deserializeField_serializeField body.paris hp
    have hdl := deserializeField_serializeField body.london hl
    simp [postHandler, getHandler, hid, dbGet_dbUpsert, hdp, hdl]

/-- C1 witness: the spec's own example — POST `{"paris":{"day1":"louvre"}}`
to `alice`, then GET, returns the submitted object, `london: null` and the
write's timestamp. -/
theorem claim1_put_get_roundtrip_witness :
    ¬ rejectId (normalizeId "alice") ∧
    getHandler
        (postHandler [] "alice" ⟨some parisVal, none, none⟩ "T0" none).1
        "alice" none =
      .getOk (some ⟨parisVal, .null, "T0"⟩) :=
  ⟨by decide,
    (claim1_put_get_roundtrip [] "alice" ⟨some parisVal, none, none⟩ "T0"
      (by decide)
      (fun v hv => by rw [← Option.some.inj hv]; decide)
      (fun v hv => by cases hv)).2⟩

/-- C5 counterexample: the stats endpoint does not return a generic
message on a store failure — it echoes the driver's `e.message`
verbatim (here one containing a file path), unlike the fixed
`"Database error"` the claim requires. -/
theorem claim5_counterexample :
    statsHandler []
        (some "SQLITE_CANTOPEN: unable to open database file ./data/travel-map.db") =
      .serverError
        "SQLITE_CANTOPEN: unable to open database file ./data/travel-map.db" ∧
    Resp.serverError
        "SQLITE_CANTOPEN: unable to open database file ./data/travel-map.db" ≠
      .serverError "Database error" :=
  ⟨rfl, by decide⟩

/-- C5 (amended): on a store failure the two sync endpoints answer 500
with fixed generic messages (`"Database error"` / `"Failed to save data"`)
independent of the thrown error, but `GET /api/admin/stats` answers 500
with the driver's own `e.message`. -/
theorem claim5_store_error_messages (st : Store) (rawId : String)
    (body : Body) (now : String) (msg : String) :
    (¬ rejectId (normalizeId rawId) →
      getHandler st rawId (some msg) = .serverError "Database error" ∧
      postHandler st rawId body now (some msg) =
        (st, .serverError "Failed to save data")) ∧
    statsHandler st (some msg) = .serverError msg := by
  exact ⟨fun hid => ⟨by simp [getHandler, hid], by simp [postHandler, hid]⟩,
    rfl⟩

/-- C5 witness: the generic sync messages and the leaked stats message on
one concrete failing request each. -/
theorem claim5_store_error_messages_witness :
    ¬ rejectId (normalizeId "alice") ∧
    getHandler [] "alice" (some "disk I/O error") =
      .serverError "Database error" ∧
    statsHandler [] (some "disk I/O error") =
      .serverError "disk I/O error" := by
  have h := claim5_store_error_messages [] "alice" ⟨none, none, none⟩ "T0"
    "disk I/O error"
  exact ⟨by decide, (h.1 (by decide)).1, h.2⟩

/-! ## Stats: counting distinct successfully-Put identifiers -/

theorem run_nil (st : Store) : run [] st = st := rfl

theorem run_cons (op : Op) (ops : List Op) (st : Store) :
    run (op :: ops) st = run ops (step st op).1 := by
  simp [run, List.foldl_cons]

theorem dbGet_isSome_iff (st : Store) (k : String) :
    (dbGet st k).isSome = true ↔ k ∈ keysF st := by
  induction st with
  | nil => simp [dbGet, keysF]
  | cons p st ih =>
      obtain ⟨k1, r1⟩ := p
      by_cases h : k1 = k
      · subst h; simp [dbGet, keysF]
      · simp [dbGet, keysF, h, Ne.symm h] at ih ⊢
        exact ih

theorem keysF_dbUpsert (st : Store) (k : String) (r : Row) :
    keysF (dbUpsert st k r) = insert k (keysF st) := by
  unfold keysF
  rw [dbUpsert_keys]
  split
  · rename_i h
    have hk : k ∈ (st.map Prod.fst).toFinset := (dbGet_isSome_iff st k).mp h
    exact ((Finset.insert_eq_self.mpr hk).symm)
  · simp [List.toFinset_append, Finset.union_comm, Finset.insert_eq]

theorem nodup_dbUpsert (st : Store) (k : String) (r : Row)
    (h : (st.map Prod.fst).Nodup) :
    ((dbUpsert st k r).map Prod.fst).Nodup := by
  rw [dbUpsert_keys]
  split
  · exact h
  · rename_i hns
    have hk : k ∉ st.map Prod.fst := by
      intro hmem
      exact hns ((dbGet_isSome_iff st k).mpr (List.mem_toFinset.mpr hmem))
    simp [List.nodup_append, h, hk]

/-- The keys after a trace: the initial keys plus the normalized
identifiers of the trace's successful Puts. -/
theorem keysF_run (ops : List Op) : ∀ st : Store,
    keysF (run ops st) = keysF st ∪ (succPutIds ops).toFinset := by
  induction ops with
  | nil => intro st; simp [run_nil, succPutIds]
  | cons op ops ih =>
      intro st
      rw [run_cons]
      cases op with
      | get rawId dbFail =>
          simp only [step]
          rw [ih]
          simp [succPutIds, List.filterMap_cons]
      | stats dbFail =>
          simp only [step]
          rw [ih]
          simp [succPutIds, List.filterMap_cons]
      | put rawId body now dbFail =>
          by_cases hrej : rejectId (normalizeId rawId)
          · simp only [step, postHandler, if_pos hrej]
            rw [ih]
            simp [succPutIds, List.filterMap_cons, hrej]
          · cases dbFail with
            | some m =>
                simp only [step, postHandler, if_neg hrej]
                rw [ih]
                simp [succPutIds, List.filterMap_cons, hrej]
            | none =>
                simp only [step, postHandler, if_neg hrej]
                rw [ih, keysF_dbUpsert]
                have hsucc : succPutIds (.put rawId body now none :: ops) =
                    normalizeId rawId :: succPutIds ops := by
                  simp [succPutIds, List.filterMap_cons, hrej]
                rw [hsucc]
                simp [Finset.insert_union, Finset.union_insert]

theorem nodup_run (ops : List Op) : ∀ st : Store,
    (st.map Prod.fst).Nodup → ((run ops st).map Prod.fst).Nodup := by
  induction ops with
  | nil => intro st h; simpa [run_nil] using h
  | cons op ops ih =>
      intro st h
      rw [run_cons]
      cases op with
      | get rawId dbFail => exact ih st h
      | stats dbFail => exact ih st h
      | put rawId body now dbFail =>
          by_cases hrej : rejectId (normalizeId rawId)
          · simpa only [step, postHandler, if_pos hrej] using ih st h
          · cases dbFail with
            | some m =>
                simpa only [step, postHandler, if_neg hrej] using ih st h
            | none =>
                simp only [step, postHandler, if_neg hrej]
                exact ih _ (nodup_dbUpsert st _ _ h)

/-- C9: `/api/admin/stats` reports exactly the number of distinct
normalized identifiers with at least one successful Put (starting from the
empty table); no operation decreases the count; a successful Put of an
unseen key adds exactly 1; a Put of a present key leaves it unchanged. -/
theorem claim9_stats_user_count :
    (∀ ops, statsHandler (run ops []) none =
      .statsOk (succPutIds ops).toFinset.card) ∧
    (∀ st op, userCount st ≤ userCount (step st op).1) ∧
    (∀ st rawId body now, ¬ rejectId (normalizeId rawId) →
      dbGet st (normalizeId rawId) = none →
      userCount (postHandler st rawId body now none).1 =
        userCount st + 1) ∧
    (∀ st rawId body now, dbGet st (normalizeId rawId) ≠ none →
      userCount (postHandler st rawId body now none).1 = userCount st) := by
  refine ⟨?_, ?_, ?_, ?_⟩
  · intro ops
    have hn : ((run ops ([] : Store)).map Prod.fst).Nodup :=
      nodup_run ops [] (by simp)
    have hk : keysF (run ops []) = (succPutIds ops).toFinset := by
      rw [keysF_run]; simp [keysF]
    have hcount : userCount (run ops []) = (keysF (run ops [])).card := by
      unfold userCount keysF
      rw [List.toFinset_card_of_nodup hn, List.length_map]
    simp [statsHandler, hcount, hk]
  · intro st op
    cases op with
    | get rawId dbFail => simp [step, userCount]
    | stats dbFail => simp [step, userCount]
    | put rawId body now dbFail =>
        by_cases hrej : rejectId (normalizeId rawId)
        · simp [step, postHandler, hrej, userCount]
        · cases dbFail with
          | some m => simp [step, postHandler, hrej, userCount]
          | none =>
              simp only [step, postHandler, if_neg hrej, userCount]
              rw [dbUpsert_length]
              split <;> omega
  · intro st rawId body now hid hnone
    simp only [postHandler, if_neg hid, userCount]
    rw [dbUpsert_length]
    simp [hnone]
  · intro st rawId body now hsome
    by_cases hrej : rejectId (normalizeId rawId)
    · simp [postHandler, hrej, userCount]
    · simp only [postHandler, if_neg hrej, userCount]
      rw [dbUpsert_length]
      have hs : (dbGet st (normalizeId rawId)).isSome := by
        cases h : dbGet st (normalizeId rawId) with
        | none => exact absurd h hsome
        | some r => simp
      simp [hs]

/-- C9 witness: a trace with two distinct successful identifiers (one of
them written twice, once via an alias that normalizes to the same key),
one rejected identifier and one failed Put reports `userCount = 2`; a
first Put of a fresh key adds exactly one row. -/
theorem claim9_stats_user_count_witness :
    statsHandler
        (run [.put "Alice" ⟨some (.str "a"), none, none⟩ "T0" none,
              .put "alice!!" ⟨none, some (.str "b"), none⟩ "T1" none,
              .put "bob55" ⟨none, none, none⟩ "T2" none,
              .put "xx" ⟨some (.str "c"), none, none⟩ "T3" none,
              .get "alice" none,
              .put "carol" ⟨none, none, none⟩ "T4" (some "disk full")] [])
        none = .statsOk 2 ∧
    ¬ rejectId (normalizeId "carol") ∧
    dbGet ([] : Store) (normalizeId "carol") = none ∧
    userCount (postHandler [] "carol" ⟨none, none, none⟩ "T9" none).1 =
      userCount ([] : Store) + 1 := by
  refine ⟨?_, by decide, by decide, ?_⟩
  · rw [claim9_stats_user_count.1]
    decide
  · exact claim9_stats_user_count.2.2.1 [] "carol" ⟨none, none, none⟩ "T9"
      (by decide) (by decide)

/-! ## Reachable stores only hold serialized JSON -/

theorem goodCol_serializeField (ob : Option Json) :
    goodCol (serializeField ob) := by
  cases ob with
  | none => exact Or.inl rfl
  | some v =>
      by_cases ht : v.truthy = true
      · exact Or.inr ⟨v, by simp [serializeField, ht]⟩
      · exact Or.inl (by simp [serializeField, ht])

theorem goodStore_nil : goodStore [] := by
  intro k row h
  simp [dbGet] at h

theorem goodStore_dbUpsert (st : Store) (k : String) (row : Row)
    (hst : goodStore st)
    (hrow : goodCol row.paris_data ∧ goodCol row.london_data) :
    goodStore (dbUpsert st k row) := by
  intro k' row' h
  rw [dbGet_dbUpsert] at h
  split at h
  · cases Option.some.inj h; exact hrow
  · exact hst k' row' h

theorem goodStore_run (ops : List Op) :
    ∀ st, goodStore st → goodStore (run ops st) := by
  induction ops with
  | nil => intro st h; simpa [run_nil] using h
  | cons op ops ih =>
      intro st h
      rw [run_cons]
      cases op with
      | get rawId dbFail => exact ih st h
      | stats dbFail => exact ih st h
      | put rawId body now dbFail =>
          by_cases hrej : rejectId (normalizeId rawId)
          · simpa only [step, postHandler, if_pos hrej] using ih st h
          · cases dbFail with
            | some m =>
                simpa only [step, postHandler, if_neg hrej] using ih st h
            | none =>
                simp only [step, postHandler, if_neg hrej]
                exact ih _ (goodStore_dbUpsert st _ _ h
                  ⟨goodCol_serializeField _, goodCol_serializeField _⟩)

theorem deserializeField_of_goodCol (c : Option String) (h : goodCol c) :
    deserializeField c ≠ none := by
  rcases h with rfl | ⟨v, rfl⟩
  · simp [deserializeField]
  · simp [deserializeField, stringifyJ_ne_empty v, parseJson_stringifyJ v]

theorem getHandler_no_server_error (st : Store) (rawId : String)
    (h : goodStore st) : ∀ m, getHandler st rawId none ≠ .serverError m := by
  intro m
  unfold getHandler
  by_cases hrej : rejectId (normalizeId rawId)
  · simp [hrej]
  · simp only [if_neg hrej]
    cases hg : dbGet st (normalizeId rawId) with
    | none => simp
    | some row =>
        obtain ⟨hp, hl⟩ := h _ _ hg
        cases hdp : deserializeField row.paris_data with
        | none => exact absurd hdp (deserializeField_of_goodCol _ hp)
        | some p =>
            cases hdl : deserializeField row.london_data with
            | none => exact absurd hdl (deserializeField_of_goodCol _ hl)
            | some l => simp [hdp, hdl]

/-- C10: every store reachable through the API holds, in each JSON column,
NULL or the serialization of a submitted value; on such stores a Get whose
own SQLite read succeeds never reaches its catch branch — `JSON.parse`
cannot fail on what Put wrote. -/
theorem claim10_get_parse_never_fails :
    (∀ ops, goodStore (run ops [])) ∧
    (∀ st rawId m, goodStore st →
      getHandler st rawId none ≠ .serverError m) :=
  ⟨fun ops => goodStore_run ops [] goodStore_nil,
   fun st rawId m h => getHandler_no_server_error st rawId h m⟩

/-- C10 witness: on the store reached by one concrete Put, the Get error
branch is not taken. -/
theorem claim10_get_parse_never_fails_witness :
    goodStore
      (run [.put "alice" ⟨some parisVal, none, none⟩ "T0" none] []) ∧
    getHandler
        (run [.put "alice" ⟨some parisVal, none, none⟩ "T0" none] [])
        "alice" none ≠ .serverError "Database error" :=
  ⟨claim10_get_parse_never_fails.1 _,
   claim10_get_parse_never_fails.2 _ "alice" "Database error"
     (claim10_get_parse_never_fails.1 _)⟩
